import Mathlib

/-!
Verification of the meloshub-tools metadata scanner (`cmd/metagen/main.go`) and
snapshot differ (`cmd/differ/main.go`) against their natural-language
specification.

The Go programs analyse Go source files through `go/ast` and `go/types`.  We
shallowly embed the fragment of the Go AST the tools inspect (composite
literals, key/value elements, identifiers, selectors, calls, assignments,
function declarations) together with the type-checker's resolution results
(`types.Info`).  Resolution data is attached directly to the nodes: an
identifier or selector carries the `types.Object` that `info.ObjectOf` would
return for it, and a composite literal carries the printed form of the type
that `info.TypeOf` would return.  Symbol identity (Go compares `types.Object`
pointers) is modelled by a numeric `uid` on objects.

Traversals in the source use `ast.Inspect`, whose visitor returns a `Bool`:
`false` skips the children of the current node but the walk continues with the
node's siblings.  The walkers below reproduce exactly that pruning semantics;
the visitor's captured mutable variables become an explicit state value.

Panics (reachable through `go/constant.StringVal`, which panics when applied
to a non-string constant) are modelled with `Except String`; `.error` means
the Go program crashed at that point.
-/

namespace Meloshub

/-- Record `adapter.Metadata`: six string fields.  The Go field `Type` (of
type `adapter.AdapterType`, a named string type) is called `Typ` here because
`Type` is reserved in Lean. -/
structure Metadata where
  Id : String
  Title : String
  Typ : String
  Version : String
  Author : String
  Description : String
deriving DecidableEq

/-- Zero value of `adapter.Metadata` (`var meta adapter.Metadata`). -/
def Metadata.zero : Metadata := ⟨"", "", "", "", "", ""⟩

/-- Value of a `types.Const` object, as in `go/constant`: we keep the three
cases `getExprValue` can meet — a string value, a non-string value (numeric
etc., on which `constant.StringVal` panics), and `Unknown` (on which
`constant.StringVal` returns the empty string). -/
inductive ConstValue where
  | str (s : String)
  | nonString (printed : String)
  | unknown
deriving DecidableEq

/-- Resolution result for an identifier: the `types.Object` returned by
`info.ObjectOf`.  `uid` models pointer identity (Go compares objects with
`==`), `pkgPath` models `obj.Pkg().Path()` (`none` when `obj.Pkg()` is nil),
and `constVal` is `some v` exactly when the object is a `*types.Const` with
value `v`. -/
structure Obj where
  uid : Nat
  pkgPath : Option String
  constVal : Option ConstValue
deriving DecidableEq

/-- Resolved static type of an expression, as a named type `pkg.Name`.  The
source only ever uses the printed form `typ.String()`, which for a named type
is the full package path followed by a dot and the type name. -/
structure GoType where
  pkgPath : String
  name : String
deriving DecidableEq

/-- Printed form of a named type, `typ.String()` in `go/types`. -/
def GoType.printed (t : GoType) : String := t.pkgPath ++ "." ++ t.name

/-- Expressions of the Go AST fragment the scanner inspects.  `basicLit`
carries `BasicLit.Kind == token.STRING` as a Bool and the raw source text
`BasicLit.Value` (for a string literal this text still includes the quotes).
`ident` and `sel` carry the attached `types.Object` resolution (`none` models
a nil `info.ObjectOf` answer); `sel` is `ast.SelectorExpr` with `selName` the
name of its `Sel` identifier and `selObj` the resolution of that identifier.
`compLit` is `ast.CompositeLit` with the resolution of `info.TypeOf` attached
(`none` models a nil type) and its element list (a key/value element of a
struct literal is itself an expression node, `ast.KeyValueExpr`).  `binary`
stands for any computed expression with two sub-expressions, and `otherExpr`
for any further leaf expression the visitors do not act on. -/
inductive GoExpr where
  | basicLit (isStr : Bool) (value : String)
  | ident (name : String) (obj : Option Obj)
  | sel (recv : GoExpr) (selName : String) (selObj : Option Obj)
  | call (fn : GoExpr) (args : List GoExpr)
  | compLit (ty : Option GoType) (elts : List GoExpr)
  | keyValue (key : GoExpr) (value : GoExpr)
  | binary (left : GoExpr) (right : GoExpr)
  | otherExpr

/-- Statements of the embedded fragment: expression statements, assignments
(`ast.AssignStmt`, with its lists of left- and right-hand sides), and a
placeholder for statements the visitors do not act on. -/
inductive GoStmt where
  | exprStmt (e : GoExpr)
  | assign (lhs : List GoExpr) (rhs : List GoExpr)
  | otherStmt

/-- Function declaration `ast.FuncDecl`: its name and the statements of its
body block. -/
structure FuncDecl where
  name : String
  body : List GoStmt

/-- Top-level declarations of a file: function declarations, and `genDecl`
for the expressions contained in a `GenDecl` (constant/variable initializer
expressions), which `ast.Inspect` also walks. -/
inductive Decl where
  | funcDecl (fd : FuncDecl)
  | genDecl (es : List GoExpr)

/-- File `ast.File`: its list of top-level declarations. -/
def GoFile := List Decl

/-- Nodes handed to an `ast.Inspect` visitor.  Go has a single `ast.Node`
interface; the visitors in the source type-switch on it. -/
inductive GoNode where
  | expr (e : GoExpr)
  | stmt (s : GoStmt)
  | decl (d : Decl)

/-- Visitor of `ast.Inspect`, with its captured mutable variables made an
explicit state: it returns the updated state and the Bool the Go visitor
returns (`false` prunes the children of the current node). -/
def Visitor (σ : Type) := σ → GoNode → σ × Bool

mutual
/-- Walk of `ast.Inspect` over one expression: visit the node; if the visitor
answers `true`, walk its children in syntactic order.  The `Sel` identifier
of a selector and the type expression of a composite literal are leaf
identifier nodes no visitor in the source acts on, so walking them is elided. -/
def walkExpr {σ : Type} (v : Visitor σ) (st : σ) (e : GoExpr) : σ :=
  match v st (.expr e) with
  | (st2, false) => st2
  | (st2, true) =>
    match e with
    | .basicLit _ _ => st2
    | .ident _ _ => st2
    | .sel recv _ _ => walkExpr v st2 recv
    | .call fn args => walkExprs v (walkExpr v st2 fn) args
    | .compLit _ elts => walkExprs v st2 elts
    | .keyValue k val => walkExpr v (walkExpr v st2 k) val
    | .binary l r => walkExpr v (walkExpr v st2 l) r
    | .otherExpr => st2

/-- Walk of a list of sibling expressions, left to right. -/
def walkExprs {σ : Type} (v : Visitor σ) (st : σ) (es : List GoExpr) : σ :=
  match es with
  | [] => st
  | e :: rest => walkExprs v (walkExpr v st e) rest
end

/-- Walk of one statement: visit it, then (unless pruned) its expressions. -/
def walkStmt {σ : Type} (v : Visitor σ) (st : σ) (s : GoStmt) : σ :=
  match v st (.stmt s) with
  | (st2, false) => st2
  | (st2, true) =>
    match s with
    | .exprStmt e => walkExpr v st2 e
    | .assign lhs rhs => walkExprs v (walkExprs v st2 lhs) rhs
    | .otherStmt => st2

/-- Walk of the statements of a block, left to right.  The enclosing
`BlockStmt` node itself is visited first by `ast.Inspect`, but no visitor in
the source acts on a block, so that visit is elided. -/
def walkStmts {σ : Type} (v : Visitor σ) (st : σ) (ss : List GoStmt) : σ :=
  match ss with
  | [] => st
  | s :: rest => walkStmts v (walkStmt v st s) rest

/-- Walk of one top-level declaration. -/
def walkDecl {σ : Type} (v : Visitor σ) (st : σ) (d : Decl) : σ :=
  match v st (.decl d) with
  | (st2, false) => st2
  | (st2, true) =>
    match d with
    | .funcDecl fd => walkStmts v st2 fd.body
    | .genDecl es => walkExprs v st2 es

/-- Walk of a whole file: each declaration in order.  The `ast.File` node
itself is visited first by `ast.Inspect`; no visitor in the source acts on a
file node, so that visit is elided. -/
def walkFile {σ : Type} (v : Visitor σ) (st : σ) (f : GoFile) : σ :=
  match f with
  | [] => st
  | d :: rest => walkFile v (walkDecl v st d) rest

/-- Function `strings.HasSuffix(s, suffix)`: the suffix test on the
characters of the two strings. -/
def stringsHasSuffix (s suffix : String) : Bool :=
  suffix.data.isSuffixOf s.data

/-- Lexicographic strict order on character lists, as Go compares strings
with `<`. -/
def goCharsLt : List Char → List Char → Bool
  | [], [] => false
  | [], _ :: _ => true
  | _ :: _, [] => false
  | a :: as, b :: bs => if a < b then true else if b < a then false else goCharsLt as bs

/-- Comparison `a < b` on Go strings. -/
def goStringLt (a b : String) : Bool := goCharsLt a.data b.data

/-- Function `strings.Trim(value, quote)` as used in `getExprValue`: remove
every leading and every trailing double-quote character. -/
def goTrimQuotes (s : String) : String :=
  String.mk (((s.data.dropWhile (fun c => c = '"')).reverse.dropWhile
    (fun c => c = '"')).reverse)

/-- Result of `go/constant.StringVal`: the string for a string value, the
empty string for `Unknown`, and a panic (modelled as `.error`) for any other
kind of constant value. -/
def stringVal : ConstValue → Except String String
  | .str s => .ok s
  | .unknown => .ok ""
  | .nonString printed => .error (printed ++ " not a String")

/-- Function `getExprValue` of `cmd/metagen/main.go`: a string literal gives
its source text with the quote characters trimmed; an identifier or selector
whose resolved object is a constant gives `constant.StringVal` of that
constant's value; everything else gives the empty string. -/
def getExprValue (e : GoExpr) : Except String String :=
  match e with
  | .basicLit isStr v => if isStr then .ok (goTrimQuotes v) else .ok ""
  | .ident _ obj? =>
    match obj? with
    | some obj =>
      match obj.constVal with
      | some cv => stringVal cv
      | none => .ok ""
    | none => .ok ""
  | .sel _ _ selObj =>
    match selObj with
    | some obj =>
      match obj.constVal with
      | some cv => stringVal cv
      | none => .ok ""
    | none => .ok ""
  | _ => .ok ""

/-- Print of `fmt.Sprintf` applied to a key expression in
`parseCompositeLit`: an `ast.Ident` prints as its name; any other node prints
in Go's default struct format, which is never one of the six field names. -/
def sprintNode : GoExpr → String
  | .ident n _ => n
  | _ => "<non-ident-node>"

/-- Switch of `parseCompositeLit` assigning one key/value pair into the
record; unrecognized keys leave the record unchanged. -/
def setField (m : Metadata) (keyName value : String) : Metadata :=
  if keyName = "Id" then { m with Id := value }
  else if keyName = "Title" then { m with Title := value }
  else if keyName = "Type" then { m with Typ := value }
  else if keyName = "Version" then { m with Version := value }
  else if keyName = "Author" then { m with Author := value }
  else if keyName = "Description" then { m with Description := value }
  else m

/-- Loop of `parseCompositeLit` over the elements of the composite literal:
only `ast.KeyValueExpr` elements contribute; for each, the value is resolved
with `getExprValue` (whose panic propagates) before the key switch. -/
def parseFields (m : Metadata) : List GoExpr → Except String Metadata
  | [] => .ok m
  | el :: rest =>
    match el with
    | .keyValue k v =>
      match getExprValue v with
      | .error p => .error p
      | .ok value => parseFields (setField m (sprintNode k) value) rest
    | _ => parseFields m rest

/-- Function `parseCompositeLit` of `cmd/metagen/main.go`: fold the key/value
elements into a zero record, then discard the record (return `none`) when its
`Id` field is empty. -/
def parseCompositeLit (e : GoExpr) : Except String (Option Metadata) :=
  match e with
  | .compLit _ elts =>
    match parseFields Metadata.zero elts with
    | .error p => .error p
    | .ok m => if m.Id = "" then .ok none else .ok (some m)
  | _ => .ok none

/-- Visitor of `findMetadataInFuncBody`: on a composite literal whose
resolved type prints with suffix `adapter.Metadata`, parse it; if parsing
yields a record, store it and prune this node's subtree; otherwise keep
walking.  An `.error` state means the program already panicked, so nothing
further runs. -/
def fmbVisit : Visitor (Except String (Option Metadata)) := fun st n =>
  match st with
  | .error p => (.error p, false)
  | .ok cur =>
    match n with
    | .expr (.compLit ty elts) =>
      match ty with
      | some t =>
        if stringsHasSuffix (GoType.printed t) "adapter.Metadata" then
          match parseCompositeLit (.compLit ty elts) with
          | .error p => (.error p, false)
          | .ok (some m) => (.ok (some m), false)
          | .ok none => (.ok cur, true)
        else (.ok cur, true)
      | none => (.ok cur, true)
    | _ => (.ok cur, true)

/-- Function `findMetadataInFuncBody` of `cmd/metagen/main.go`: walk a
function body with `fmbVisit`, starting from no record found. -/
def findMetadataInFuncBody (body : List GoStmt) : Except String (Option Metadata) :=
  walkStmts fmbVisit (.ok none) body

/-- Visitor of `findRegisterCallArgument`: on a call whose function is a
selector named `Register`, whose resolved object has a package path ending in
`meloshub/adapter`, and which has at least one argument, store the first
argument and prune; in every other case keep walking. -/
def frcVisit : Visitor (Option GoExpr) := fun st n =>
  match n with
  | .expr (.call fn args) =>
    match fn with
    | .sel _ selName selObj =>
      if selName = "Register" then
        match selObj with
        | some obj =>
          match obj.pkgPath with
          | some p =>
            if stringsHasSuffix p "meloshub/adapter" then
              match args with
              | a :: _ => (some a, false)
              | [] => (st, true)
            else (st, true)
          | none => (st, true)
        | none => (st, true)
      else (st, true)
    | _ => (st, true)
  | _ => (st, true)

/-- Function `findRegisterCallArgument` of `cmd/metagen/main.go`. -/
def findRegisterCallArgument (body : List GoStmt) : Option GoExpr :=
  walkStmts frcVisit none body

/-- Visitor of the assignment scan in `findConstructorFunc`: on a
single-target assignment whose left-hand identifier resolves to the given
object and whose right-hand side is a call of a plain identifier, store that
callee name and prune. -/
def assignVisit (obj : Obj) : Visitor String := fun st n =>
  match n with
  | .stmt (.assign [lhs0] [rhs0]) =>
    match lhs0 with
    | .ident _ lobj =>
      if lobj = some obj then
        match rhs0 with
        | .call fn _ =>
          match fn with
          | .ident funName _ => (funName, false)
          | _ => (st, true)
        | _ => (st, true)
      else (st, true)
    | _ => (st, true)
  | _ => (st, true)

/-- Visitor of the declaration lookup in `findConstructorFunc`: on a function
declaration with the wanted name, store it and prune. -/
def lookupVisit (cname : String) : Visitor (Option FuncDecl) := fun st n =>
  match n with
  | .decl (.funcDecl fd) =>
    if fd.name = cname then (some fd, false) else (st, true)
  | _ => (st, true)

/-- Function `findConstructorFunc` of `cmd/metagen/main.go`.  A call argument
with a plain identifier callee gives the constructor name directly; an
identifier argument is resolved to its object (a nil object aborts with no
result) and the file is scanned for a matching assignment; when the resulting
name is empty the argument is untraceable, otherwise the file is scanned for
a function declaration with that name. -/
def findConstructorFunc (file : GoFile) (arg : GoExpr) : Option FuncDecl :=
  let directName : String :=
    match arg with
    | .call fn _ =>
      match fn with
      | .ident n _ => n
      | _ => ""
    | _ => ""
  let afterIndirect : Option String :=
    match arg with
    | .ident _ obj? =>
      match obj? with
      | none => none
      | some obj => some (walkFile (assignVisit obj) directName file)
    | _ => some directName
  match afterIndirect with
  | none => none
  | some constructorName =>
    if constructorName = "" then none
    else walkFile (lookupVisit constructorName) none file

/-- Visitor of `findMetadataInFile`: on a function declaration named `init`,
run the Locator → Tracer → Extractor chain and prune; an untraceable unit
leaves the state unchanged (the warning is only logged). -/
def fmfVisit (file : GoFile) : Visitor (Except String (Option Metadata)) := fun st n =>
  match st with
  | .error p => (.error p, false)
  | .ok cur =>
    match n with
    | .decl (.funcDecl fd) =>
      if fd.name = "init" then
        match findRegisterCallArgument fd.body with
        | none => (.ok cur, false)
        | some registerArg =>
          match findConstructorFunc file registerArg with
          | none => (.ok cur, false)
          | some cf =>
            match findMetadataInFuncBody cf.body with
            | .error p => (.error p, false)
            | .ok (some m) => (.ok (some m), false)
            | .ok none => (.ok cur, false)
      else (.ok cur, true)
    | _ => (.ok cur, true)

/-- Function `findMetadataInFile` of `cmd/metagen/main.go`. -/
def findMetadataInFile (file : GoFile) : Except String (Option Metadata) :=
  walkFile (fmfVisit file) (.ok none) file

/-- Function `findMetadataInPackage` of `cmd/metagen/main.go`: first file
that yields a record wins. -/
def findMetadataInPackage (files : List GoFile) : Except String (Option Metadata) :=
  match files with
  | [] => .ok none
  | f :: rest =>
    match findMetadataInFile f with
    | .error p => .error p
    | .ok (some m) => .ok (some m)
    | .ok none => findMetadataInPackage rest

/-- State of the previously persisted snapshot file at the output path, as
`checkConflicts` distinguishes it: missing (`os.Stat` answers not-exist),
some other stat error, a read error, unparseable YAML, or parsed records. -/
inductive SnapshotFile where
  | missing
  | statError
  | readError
  | malformed
  | parsed (records : List Metadata)

/-- Loop of `checkConflicts` over the freshly produced records.  The branch
testing membership of the current Id in the pre-existing snapshot's Id set
has an empty body in the source, so its condition is evaluated and discarded
here; only the duplicate test against the Ids already seen in this scan can
fail. -/
def conflictLoop (existingIds : List String) : List Metadata → List String → Except String Unit
  | [], _ => .ok ()
  | m :: rest, newIds =>
    let _crossSnapshotHit := existingIds.contains m.Id
    if newIds.contains m.Id then
      .error ("duplicate adapter Id " ++ m.Id ++ " found in the current scan")
    else conflictLoop existingIds rest (m.Id :: newIds)

/-- Function `checkConflicts` of `cmd/metagen/main.go`: a missing snapshot
file skips the whole check; stat, read, and parse failures are errors; with a
parsed snapshot, the pre-existing Id set is built and the loop runs. -/
def checkConflicts (newMetadata : List Metadata) (file : SnapshotFile) : Except String Unit :=
  match file with
  | .missing => .ok ()
  | .statError => .error "could not stat existing file"
  | .readError => .error "could not read existing file"
  | .malformed => .error "could not parse existing yaml file"
  | .parsed existingMetadata =>
    conflictLoop (existingMetadata.map (fun m => m.Id)) newMetadata []

/-- Insertion step of the sort `sort.Slice(allMetadata, Id before Id)`. -/
def insertById (m : Metadata) : List Metadata → List Metadata
  | [] => [m]
  | x :: xs => if goStringLt x.Id m.Id then x :: insertById m xs else m :: x :: xs

/-- Sort of the collected records by Id before output. -/
def sortById : List Metadata → List Metadata
  | [] => []
  | m :: rest => insertById m (sortById rest)

/-- Tail of `main` in `cmd/metagen/main.go` after the scan has produced its
record collection: run the conflict check against the snapshot at the output
path; on failure the run terminates (`log.Fatalf`) before any write, on
success the records are sorted by Id and the output file is written with
them.  An `.ok` result is the content of the written output file; `.error`
means the run died and no output file was written. -/
def runMetagen (allMetadata : List Metadata) (snapshot : SnapshotFile) : Except String (List Metadata) :=
  match checkConflicts allMetadata snapshot with
  | .error e => .error ("Conflict check failed: " ++ e)
  | .ok _ => .ok (sortById allMetadata)

/-- Pair of records of `cmd/differ/main.go`'s `UpdateEntry`. -/
structure UpdateEntry where
  Before : Metadata
  After : Metadata
deriving DecidableEq

/-- Report of `cmd/differ/main.go`'s `ChangeReport`. -/
structure ChangeReport where
  Added : List Metadata
  Removed : List Metadata
  Updated : List UpdateEntry
deriving DecidableEq

/-- Canonical serialization of one record, standing for `yaml.Marshal` in
`compareMetadata`.  YAML marshalling of this struct emits its six string
fields, each independently and deterministically escaped, so two records
marshal to the same bytes exactly when their field tuples are equal; the
embedding therefore uses the field tuple itself as the canonical form. -/
def metaFields (m : Metadata) : List String :=
  [m.Id, m.Title, m.Typ, m.Version, m.Author, m.Description]

/-- Insertion `m[k] = v` into a Go map, represented as an association list
with pairwise distinct keys (iteration order of a Go map is unspecified, so
no particular order is owed). -/
def mapInsert (m : List (String × Metadata)) (k : String) (v : Metadata) :
    List (String × Metadata) :=
  (k, v) :: m.filter (fun p => p.1 ≠ k)

/-- Lookup in the association-list representation of a Go map. -/
def mapFind (m : List (String × Metadata)) (k : String) : Option Metadata :=
  match m.find? (fun p => p.1 = k) with
  | some p => some p.2
  | none => none

/-- Collapse of a record list to a map keyed by Id, as the two loops at the
top of `compareMetadata` do; a later record with the same Id replaces an
earlier one. -/
def mapify (l : List Metadata) : List (String × Metadata) :=
  l.foldl (fun acc x => mapInsert acc x.Id x) []

/-- Function `compareMetadata` of `cmd/differ/main.go`: after collapsing both
collections to maps, an Id only in the new map is Added, an Id only in the
old map is Removed, and an Id in both whose records serialize differently is
Updated with both values. -/
def compareMetadata (oldList newList : List Metadata) : ChangeReport :=
  let oldMap := mapify oldList
  let newMap := mapify newList
  { Added := (newMap.filter (fun p => (mapFind oldMap p.1).isNone)).map Prod.snd
    Removed := (oldMap.filter (fun p => (mapFind newMap p.1).isNone)).map Prod.snd
    Updated := newMap.filterMap (fun p =>
      match mapFind oldMap p.1 with
      | none => none
      | some oldMeta =>
        if metaFields oldMeta = metaFields p.2 then none
        else some ⟨oldMeta, p.2⟩) }

/-- Lookup of the record a Go map collapse associates to an Id: the last
record in the list carrying that Id. -/
def lastWins : List Metadata → String → Option Metadata
  | [], _ => none
  | m :: rest, k =>
    match lastWins rest k with
    | some v => some v
    | none => if m.Id = k then some m else none

/-- Resolved type of the target record, `adapter.Metadata` of the meloshub
module (import path `github.com/meloshub/meloshub/adapter`). -/
def adapterType : GoType := ⟨"github.com/meloshub/meloshub/adapter", "Metadata"⟩

/-- Metadata composite literal of the given resolved type whose only element
sets the `Id` field from a string literal with the given source text. -/
def mkMetaLit (ty : GoType) (idSrc : String) : GoExpr :=
  .compLit (some ty) [.keyValue (.ident "Id" none) (.basicLit true idSrc)]

/-- Record whose only non-empty field is its Id. -/
def mkIdMeta (idv : String) : Metadata := ⟨idv, "", "", "", "", ""⟩

/-- Resolved object of the `Register` function of the meloshub adapter
package. -/
def registerObj : Obj := ⟨1000, some "github.com/meloshub/meloshub/adapter", none⟩

/-- Call `ad.Register(arg)` through import alias `ad`, with the selector
resolved to the genuine registration function. -/
def registerCall (arg : GoExpr) : GoExpr :=
  .call (.sel (.ident "ad" none) "Register" (some registerObj)) [arg]

/-- Body of an initializer consisting of a single call statement
`alias.selName(argName)`, with the given resolution of the selector.  The
template for the Registration Site Locator claims. -/
def singleCallBody (pkgAlias selName : String) (selObj : Option Obj) (argName : String) :
    List GoStmt :=
  [.exprStmt (.call (.sel (.ident pkgAlias none) selName selObj) [.ident argName none])]

/-- Modelled from the spec: the condition under which the Registration Site
Locator is said to honor a call — the textual selector is the registration
function's name and the resolved callee object's package path ends in
`meloshub/adapter` (resolved path suffix, not textual alias). -/
def specHonors (selName : String) (selObj : Option Obj) : Bool :=
  selName = "Register" &&
    (match selObj with
     | some obj =>
       match obj.pkgPath with
       | some p => stringsHasSuffix p "meloshub/adapter"
       | none => false
     | none => false)

/-- Function declarations of a file carrying the given name, in order. -/
def declsNamed (file : GoFile) (n : String) : List FuncDecl :=
  file.filterMap (fun d =>
    match d with
    | .funcDecl fd => if fd.name = n then some fd else none
    | .genDecl _ => none)

/-- One step of the assignment scan of `findConstructorFunc`, at the level of
a statement list: a single-target assignment whose left-hand identifier
resolves to the given object and whose right-hand side calls a plain
identifier replaces the candidate name with that callee. -/
def assignStep (obj : Obj) (st : String) (s : GoStmt) : String :=
  match s with
  | .assign [lhs0] [rhs0] =>
    match lhs0 with
    | .ident _ lobj =>
      if lobj = some obj then
        match rhs0 with
        | .call fn _ =>
          match fn with
          | .ident funName _ => funName
          | _ => st
        | _ => st
      else st
    | _ => st
  | _ => st

/-- One step of the declaration lookup of `findConstructorFunc`, at the level
of the declaration list: a later declaration with the wanted name replaces an
earlier one. -/
def lookupStep (cname : String) (st : Option FuncDecl) (d : Decl) : Option FuncDecl :=
  match d with
  | .funcDecl fd => if fd.name = cname then some fd else st
  | .genDecl _ => st

/-- One step of the assignment scan at the level of a declaration: only the
statements of function bodies can carry assignments. -/
def assignDeclStep (obj : Obj) (st : String) (d : Decl) : String :=
  match d with
  | .funcDecl fd => fd.body.foldl (assignStep obj) st
  | .genDecl _ => st

/-- Test whether a statement is a single-target assignment to the given
resolved object (with any right-hand side the tracer recognizes).  Statements
failing this test leave the assignment scan's state unchanged. -/
def touchesObj (obj : Obj) : GoStmt → Bool
  | .assign [lhs0] [_] =>
    match lhs0 with
    | .ident _ lobj => lobj = some obj
    | _ => false
  | _ => false

/-- Test whether an expression node is a key/value element. -/
def isKeyValueNode : GoExpr → Bool
  | .keyValue _ _ => true
  | _ => false

/-- Test whether an expression avoids the one panicking path of
`getExprValue`: it is not an identifier or selector resolving to a named
constant of non-string kind. -/
def noNonStringConstRef : GoExpr → Bool
  | .ident _ (some o) =>
    match o.constVal with
    | some (.nonString _) => false
    | _ => true
  | .sel _ _ (some o) =>
    match o.constVal with
    | some (.nonString _) => false
    | _ => true
  | _ => true

/-!
Lemma library.  A visitor that answers "`state unchanged, keep walking`" on
every expression node leaves the state of any expression walk unchanged; the
same extends to statements and files for visitors that also pass through the
relevant statement or declaration nodes.  These lemmas let the `ast.Inspect`
walks be collapsed to list folds over the places where a visitor can act.
-/

mutual
theorem walkExpr_noop {σ : Type} (v : Visitor σ)
    (hv : ∀ st e, v st (.expr e) = (st, true)) (st : σ) (e : GoExpr) :
    walkExpr v st e = st := by
  cases e with
  | basicLit isStr value => rw [walkExpr.eq_def, hv]
  | ident name obj => rw [walkExpr.eq_def, hv]
  | sel recv selName selObj =>
    rw [walkExpr.eq_def, hv]
    exact walkExpr_noop v hv st recv
  | call fn args =>
    rw [walkExpr.eq_def, hv]
    show walkExprs v (walkExpr v st fn) args = st
    rw [walkExpr_noop v hv st fn]
    exact walkExprs_noop v hv st args
  | compLit ty elts =>
    rw [walkExpr.eq_def, hv]
    exact walkExprs_noop v hv st elts
  | keyValue k val =>
    rw [walkExpr.eq_def, hv]
    show walkExpr v (walkExpr v st k) val = st
    rw [walkExpr_noop v hv st k]
    exact walkExpr_noop v hv st val
  | binary l r =>
    rw [walkExpr.eq_def, hv]
    show walkExpr v (walkExpr v st l) r = st
    rw [walkExpr_noop v hv st l]
    exact walkExpr_noop v hv st r
  | otherExpr => rw [walkExpr.eq_def, hv]

theorem walkExprs_noop {σ : Type} (v : Visitor σ)
    (hv : ∀ st e, v st (.expr e) = (st, true)) (st : σ) (es : List GoExpr) :
    walkExprs v st es = st := by
  cases es with
  | nil => rw [walkExprs.eq_def]
  | cons e rest =>
    show walkExprs v (walkExpr v st e) rest = st
    rw [walkExpr_noop v hv st e]
    exact walkExprs_noop v hv st rest
end

theorem walkStmt_noop {σ : Type} (v : Visitor σ)
    (hv : ∀ st e, v st (.expr e) = (st, true)) (st : σ) (s : GoStmt)
    (hs : ∀ st', v st' (.stmt s) = (st', true)) :
    walkStmt v st s = st := by
  cases s with
  | exprStmt e =>
    rw [walkStmt.eq_def, hs]
    exact walkExpr_noop v hv st e
  | assign lhs rhs =>
    rw [walkStmt.eq_def, hs]
    show walkExprs v (walkExprs v st lhs) rhs = st
    rw [walkExprs_noop v hv st lhs]
    exact walkExprs_noop v hv st rhs
  | otherStmt => rw [walkStmt.eq_def, hs]

theorem walkStmts_noop {σ : Type} (v : Visitor σ)
    (hv : ∀ st e, v st (.expr e) = (st, true)) (st : σ) (ss : List GoStmt)
    (hs : ∀ st' s, s ∈ ss → v st' (.stmt s) = (st', true)) :
    walkStmts v st ss = st := by
  induction ss generalizing st with
  | nil => rw [walkStmts.eq_def]
  | cons s rest ih =>
    show walkStmts v (walkStmt v st s) rest = st
    rw [walkStmt_noop v hv st s (fun st' => hs st' s (List.mem_cons_self s rest))]
    exact ih st (fun st' s' hmem => hs st' s' (List.mem_cons_of_mem s hmem))

theorem walkStmts_eq_foldl {σ : Type} (v : Visitor σ) (step : σ → GoStmt → σ)
    (h : ∀ st s, walkStmt v st s = step st s) (st : σ) (ss : List GoStmt) :
    walkStmts v st ss = ss.foldl step st := by
  induction ss generalizing st with
  | nil => rw [walkStmts.eq_def]; rfl
  | cons s rest ih =>
    show walkStmts v (walkStmt v st s) rest = _
    rw [h st s]
    exact ih (step st s)

theorem walkFile_eq_foldl {σ : Type} (v : Visitor σ) (step : σ → Decl → σ)
    (h : ∀ st d, walkDecl v st d = step st d) (st : σ) (file : GoFile) :
    walkFile v st file = file.foldl step st := by
  induction file generalizing st with
  | nil => rw [walkFile.eq_def]; rfl
  | cons d rest ih =>
    show walkFile v (walkDecl v st d) rest = _
    rw [h st d]
    exact ih (step st d)

theorem assignVisit_stmt (obj : Obj) (st : String) (s : GoStmt) :
    assignVisit obj st (.stmt s) = (assignStep obj st s, false) ∨
      (assignVisit obj st (.stmt s) = (st, true) ∧ assignStep obj st s = st) := by
  cases s with
  | exprStmt e => exact Or.inr ⟨rfl, rfl⟩
  | otherStmt => exact Or.inr ⟨rfl, rfl⟩
  | assign lhs rhs =>
    match lhs, rhs with
    | [], _ => exact Or.inr ⟨rfl, rfl⟩
    | _ :: _ :: _, _ => exact Or.inr ⟨rfl, rfl⟩
    | [lhs0], [] => exact Or.inr ⟨rfl, rfl⟩
    | [lhs0], _ :: _ :: _ => exact Or.inr ⟨rfl, rfl⟩
    | [lhs0], [rhs0] =>
      cases lhs0 with
      | ident name lobj =>
        by_cases h : lobj = some obj
        · cases rhs0 with
          | call fn args =>
            cases fn with
            | ident funName fo =>
              refine Or.inl ?_
              simp only [assignVisit, assignStep, if_pos h]
            | basicLit a b => exact Or.inr ⟨by simp only [assignVisit, if_pos h], by simp only [assignStep, if_pos h]⟩
            | call a b => exact Or.inr ⟨by simp only [assignVisit, if_pos h], by simp only [assignStep, if_pos h]⟩
            | sel a b c => exact Or.inr ⟨by simp only [assignVisit, if_pos h], by simp only [assignStep, if_pos h]⟩
            | compLit a b => exact Or.inr ⟨by simp only [assignVisit, if_pos h], by simp only [assignStep, if_pos h]⟩
            | keyValue a b => exact Or.inr ⟨by simp only [assignVisit, if_pos h], by simp only [assignStep, if_pos h]⟩
            | binary a b => exact Or.inr ⟨by simp only [assignVisit, if_pos h], by simp only [assignStep, if_pos h]⟩
            | otherExpr => exact Or.inr ⟨by simp only [assignVisit, if_pos h], by simp only [assignStep, if_pos h]⟩
          | basicLit a b => exact Or.inr ⟨by simp only [assignVisit, if_pos h], by simp only [assignStep, if_pos h]⟩
          | ident a b => exact Or.inr ⟨by simp only [assignVisit, if_pos h], by simp only [assignStep, if_pos h]⟩
          | sel a b c => exact Or.inr ⟨by simp only [assignVisit, if_pos h], by simp only [assignStep, if_pos h]⟩
          | compLit a b => exact Or.inr ⟨by simp only [assignVisit, if_pos h], by simp only [assignStep, if_pos h]⟩
          | keyValue a b => exact Or.inr ⟨by simp only [assignVisit, if_pos h], by simp only [assignStep, if_pos h]⟩
          | binary a b => exact Or.inr ⟨by simp only [assignVisit, if_pos h], by simp only [assignStep, if_pos h]⟩
          | otherExpr => exact Or.inr ⟨by simp only [assignVisit, if_pos h], by simp only [assignStep, if_pos h]⟩
        · exact Or.inr ⟨by simp only [assignVisit, if_neg h], by simp only [assignStep, if_neg h]⟩
      | basicLit a b => exact Or.inr ⟨rfl, rfl⟩
      | sel a b c => exact Or.inr ⟨rfl, rfl⟩
      | call a b => exact Or.inr ⟨rfl, rfl⟩
      | compLit a b => exact Or.inr ⟨rfl, rfl⟩
      | keyValue a b => exact Or.inr ⟨rfl, rfl⟩
      | binary a b => exact Or.inr ⟨rfl, rfl⟩
      | otherExpr => exact Or.inr ⟨rfl, rfl⟩

theorem walkStmt_assignVisit (obj : Obj) (st : String) (s : GoStmt) :
    walkStmt (assignVisit obj) st s = assignStep obj st s := by
  have hexpr : ∀ (st' : String) (e : GoExpr), assignVisit obj st' (.expr e) = (st', true) :=
    fun _ _ => rfl
  rcases assignVisit_stmt obj st s with h | ⟨h1, h2⟩
  · rw [walkStmt.eq_def, h]
  · rw [walkStmt.eq_def, h1, h2]
    cases s with
    | exprStmt e => exact walkExpr_noop _ hexpr st e
    | assign lhs rhs =>
      show walkExprs _ (walkExprs _ st lhs) rhs = st
      rw [walkExprs_noop _ hexpr st lhs]
      exact walkExprs_noop _ hexpr st rhs
    | otherStmt => rfl

theorem walkDecl_assignVisit (obj : Obj) (st : String) (d : Decl) :
    walkDecl (assignVisit obj) st d = assignDeclStep obj st d := by
  have hexpr : ∀ (st' : String) (e : GoExpr), assignVisit obj st' (.expr e) = (st', true) :=
    fun _ _ => rfl
  cases d with
  | funcDecl fd =>
    show walkStmts (assignVisit obj) st fd.body = _
    rw [walkStmts_eq_foldl _ _ (walkStmt_assignVisit obj) st fd.body]
    rfl
  | genDecl es =>
    show walkExprs _ st es = _
    rw [walkExprs_noop _ hexpr st es]
    rfl

theorem walkFile_assignVisit (obj : Obj) (st : String) (file : GoFile) :
    walkFile (assignVisit obj) st file = file.foldl (assignDeclStep obj) st :=
  walkFile_eq_foldl _ _ (walkDecl_assignVisit obj) st file

theorem walkDecl_lookupVisit (cn : String) (st : Option FuncDecl) (d : Decl) :
    walkDecl (lookupVisit cn) st d = lookupStep cn st d := by
  have hexpr : ∀ (st' : Option FuncDecl) (e : GoExpr), lookupVisit cn st' (.expr e) = (st', true) :=
    fun _ _ => rfl
  have hstmt : ∀ (st' : Option FuncDecl) (s : GoStmt), lookupVisit cn st' (.stmt s) = (st', true) :=
    fun _ _ => rfl
  cases d with
  | funcDecl fd =>
    by_cases h : fd.name = cn
    · rw [walkDecl.eq_def]
      simp only [lookupVisit, lookupStep, if_pos h]
    · rw [walkDecl.eq_def]
      simp only [lookupVisit, lookupStep, if_neg h]
      exact walkStmts_noop _ hexpr st fd.body (fun st' s _ => hstmt st' s)
  | genDecl es =>
    show walkExprs _ st es = _
    rw [walkExprs_noop _ hexpr st es]
    rfl

theorem walkFile_lookupVisit (cn : String) (st : Option FuncDecl) (file : GoFile) :
    walkFile (lookupVisit cn) st file = file.foldl (lookupStep cn) st :=
  walkFile_eq_foldl _ _ (walkDecl_lookupVisit cn) st file

theorem foldl_lookupStep_of_none (cn : String) (file : GoFile)
    (h : declsNamed file cn = []) (st : Option FuncDecl) :
    file.foldl (lookupStep cn) st = st := by
  induction file generalizing st with
  | nil => rfl
  | cons d rest ih =>
    cases d with
    | funcDecl fd =>
      by_cases hn : fd.name = cn
      · simp only [declsNamed, List.filterMap_cons, if_pos hn] at h
        exact absurd h (List.cons_ne_nil _ _)
      · have hrest : declsNamed rest cn = [] := by
          simpa only [declsNamed, List.filterMap_cons, if_neg hn] using h
        show rest.foldl (lookupStep cn) (lookupStep cn st (.funcDecl fd)) = st
        simp only [lookupStep, if_neg hn]
        exact ih hrest st
    | genDecl es =>
      have hrest : declsNamed rest cn = [] := by
        simpa only [declsNamed, List.filterMap_cons] using h
      exact ih hrest st

theorem foldl_lookupStep_unique (cn : String) (file : GoFile) (fd : FuncDecl)
    (h : declsNamed file cn = [fd]) (st : Option FuncDecl) :
    file.foldl (lookupStep cn) st = some fd := by
  induction file generalizing st with
  | nil =>
    simp only [declsNamed, List.filterMap_nil] at h
    exact absurd h.symm (List.cons_ne_nil fd [])
  | cons d rest ih =>
    cases d with
    | funcDecl fd0 =>
      by_cases hn : fd0.name = cn
      · simp only [declsNamed, List.filterMap_cons, if_pos hn, List.cons.injEq] at h
        show rest.foldl (lookupStep cn) (lookupStep cn st (.funcDecl fd0)) = some fd
        simp only [lookupStep, if_pos hn]
        rw [foldl_lookupStep_of_none cn rest h.2 (some fd0), h.1]
      · have hrest : declsNamed rest cn = [fd] := by
          simpa only [declsNamed, List.filterMap_cons, if_neg hn] using h
        show rest.foldl (lookupStep cn) (lookupStep cn st (.funcDecl fd0)) = some fd
        simp only [lookupStep, if_neg hn]
        exact ih hrest st
    | genDecl es =>
      have hrest : declsNamed rest cn = [fd] := by
        simpa only [declsNamed, List.filterMap_cons] using h
      exact ih hrest st

theorem conflictLoop_ok_iff (ex : List String) (l : List Metadata) (seen : List String) :
    conflictLoop ex l seen = .ok () ↔
      ((l.map (fun m => m.Id)).Nodup ∧ ∀ m ∈ l, m.Id ∉ seen) := by
  induction l generalizing seen with
  | nil => simp [conflictLoop]
  | cons m rest ih =>
    by_cases hmem : m.Id ∈ seen
    · have hc : seen.contains m.Id = true := by simpa using hmem
      constructor
      · intro h
        rw [conflictLoop.eq_def] at h
        simp only [hc, if_true] at h
        exact absurd h (by simp)
      · rintro ⟨-, hall⟩
        exact absurd hmem (hall m (List.mem_cons_self m rest))
    · have hc : seen.contains m.Id = false := by simpa using hmem
      rw [conflictLoop.eq_def]
      simp only [hc, Bool.false_eq_true, if_false]
      rw [ih (m.Id :: seen)]
      constructor
      · rintro ⟨hnd, hall⟩
        have h1 : m.Id ∉ rest.map (fun x => x.Id) := by
          intro hin
          rcases List.mem_map.mp hin with ⟨m', hm', he⟩
          exact hall m' hm' (by rw [he]; exact List.mem_cons_self _ _)
        refine ⟨List.nodup_cons.mpr ⟨h1, hnd⟩, ?_⟩
        intro m' hm'
        rcases List.mem_cons.mp hm' with he | hm''
        · rw [he]; exact hmem
        · intro hin
          exact hall m' hm'' (List.mem_cons_of_mem _ hin)
      · rintro ⟨hnd, hall⟩
        rcases List.nodup_cons.mp hnd with ⟨h1, h2⟩
        refine ⟨h2, ?_⟩
        intro m' hm' hin
        rcases List.mem_cons.mp hin with he | hseen
        · exact h1 (List.mem_map.mpr ⟨m', hm', he⟩)
        · exact hall m' (List.mem_cons_of_mem _ hm') hseen

theorem conflictLoop_not_ok (ex : List String) (l : List Metadata) (seen : List String)
    (h : ¬ ((l.map (fun m => m.Id)).Nodup ∧ ∀ m ∈ l, m.Id ∉ seen)) :
    ∃ msg, conflictLoop ex l seen = .error msg := by
  cases hE : conflictLoop ex l seen with
  | error msg => exact ⟨msg, rfl⟩
  | ok u =>
    cases u
    exact absurd ((conflictLoop_ok_iff ex l seen).mp hE) h

theorem dropWhile_quote_head (l : List Char) :
    List.dropWhile (fun c => c = '"') ('"' :: l) = List.dropWhile (fun c => c = '"') l := by
  simp [List.dropWhile_cons]

theorem dropWhile_quote_of_head_ne (l : List Char) (c : Char) (hc : c ≠ '"') :
    List.dropWhile (fun ch => ch = '"') (c :: l) = c :: l := by
  simp [List.dropWhile_cons, hc]

theorem goTrimQuotes_wrap (s : String)
    (h1 : s.data.head? ≠ some '"') (h2 : s.data.getLast? ≠ some '"') :
    goTrimQuotes ("\"" ++ s ++ "\"") = s := by
  obtain ⟨sd⟩ := s
  cases sd with
  | nil => rfl
  | cons c cs =>
    have hc : c ≠ '"' := fun he => h1 (by simp [he])
    unfold goTrimQuotes
    refine congrArg String.mk ?_
    show ((List.dropWhile (fun ch => ch = '"')
        ('"' :: ((c :: cs) ++ ['"']))).reverse.dropWhile (fun ch => ch = '"')).reverse = c :: cs
    rw [dropWhile_quote_head]
    rw [show ((c :: cs) ++ ['"'] : List Char) = c :: (cs ++ ['"']) from rfl]
    rw [dropWhile_quote_of_head_ne _ c hc]
    rw [show (c :: (cs ++ ['"']) : List Char) = (c :: cs) ++ ['"'] from rfl]
    rw [List.reverse_append]
    rw [show (['"'] : List Char).reverse ++ (c :: cs).reverse = '"' :: (c :: cs).reverse from rfl]
    rw [dropWhile_quote_head]
    cases hrev : (c :: cs).reverse with
    | nil => exact absurd hrev (by simp)
    | cons d ds =>
      have hd : d ≠ '"' := by
        intro he
        apply h2
        rw [← List.head?_reverse, hrev, he]
        rfl
      rw [dropWhile_quote_of_head_ne _ d hd]
      rw [← hrev, List.reverse_reverse]

theorem parseFields_noKV (m : Metadata) (elts : List GoExpr)
    (h : ∀ el ∈ elts, isKeyValueNode el = false) :
    parseFields m elts = .ok m := by
  induction elts with
  | nil => rfl
  | cons el rest ih =>
    have hel := h el (List.mem_cons_self el rest)
    have ihr := ih (fun el' hmem => h el' (List.mem_cons_of_mem el hmem))
    cases el with
    | keyValue k v => exact Bool.noConfusion hel
    | basicLit a b => exact ihr
    | ident a b => exact ihr
    | sel a b c => exact ihr
    | call a b => exact ihr
    | compLit a b => exact ihr
    | binary a b => exact ihr
    | otherExpr => exact ihr

theorem parseCompositeLit_mkMetaLit (ty : GoType) (s : String) :
    parseCompositeLit (.compLit (some ty) [.keyValue (.ident "Id" none) (.basicLit true s)]) =
      (if goTrimQuotes s = "" then .ok none else .ok (some (mkIdMeta (goTrimQuotes s)))) := by
  show (match parseFields Metadata.zero [.keyValue (.ident "Id" none) (.basicLit true s)] with
    | .error p => .error p
    | .ok m => if m.Id = "" then .ok none else .ok (some m) : Except String (Option Metadata)) = _
  rw [show parseFields Metadata.zero [.keyValue (.ident "Id" none) (.basicLit true s)] =
    .ok (mkIdMeta (goTrimQuotes s)) from rfl]
  rfl

theorem walkExpr_fmb_lit (cur : Option Metadata) (ty : GoType) (s : String) :
    walkExpr fmbVisit (.ok cur) (mkMetaLit ty s) =
      (if stringsHasSuffix (GoType.printed ty) "adapter.Metadata" = true then
        (if goTrimQuotes s = "" then .ok cur else .ok (some (mkIdMeta (goTrimQuotes s))))
       else .ok cur) := by
  by_cases hsuf : stringsHasSuffix (GoType.printed ty) "adapter.Metadata" = true
  · rw [if_pos hsuf]
    by_cases hid : goTrimQuotes s = ""
    · rw [if_pos hid]
      rw [walkExpr.eq_def]
      have hv : fmbVisit (.ok cur) (.expr (mkMetaLit ty s)) = (.ok cur, true) := by
        show fmbVisit (.ok cur)
          (.expr (.compLit (some ty) [.keyValue (.ident "Id" none) (.basicLit true s)])) = _
        simp only [fmbVisit]
        rw [if_pos hsuf, parseCompositeLit_mkMetaLit, if_pos hid]
      rw [hv]
      rfl
    · rw [if_neg hid]
      rw [walkExpr.eq_def]
      have hv : fmbVisit (.ok cur) (.expr (mkMetaLit ty s)) =
          (.ok (some (mkIdMeta (goTrimQuotes s))), false) := by
        show fmbVisit (.ok cur)
          (.expr (.compLit (some ty) [.keyValue (.ident "Id" none) (.basicLit true s)])) = _
        simp only [fmbVisit]
        rw [if_pos hsuf, parseCompositeLit_mkMetaLit, if_neg hid]
      rw [hv]
  · rw [if_neg hsuf]
    rw [walkExpr.eq_def]
    have hv : fmbVisit (.ok cur) (.expr (mkMetaLit ty s)) = (.ok cur, true) := by
      show fmbVisit (.ok cur)
        (.expr (.compLit (some ty) [.keyValue (.ident "Id" none) (.basicLit true s)])) = _
      simp only [fmbVisit]
      rw [if_neg hsuf]
    rw [hv]
    rfl

theorem walkStmt_fmb_lit (cur : Option Metadata) (ty : GoType) (s : String) :
    walkStmt fmbVisit (.ok cur) (.exprStmt (mkMetaLit ty s)) =
      (if stringsHasSuffix (GoType.printed ty) "adapter.Metadata" = true then
        (if goTrimQuotes s = "" then .ok cur else .ok (some (mkIdMeta (goTrimQuotes s))))
       else .ok cur) := by
  rw [walkStmt.eq_def]
  rw [show fmbVisit (.ok cur) (.stmt (.exprStmt (mkMetaLit ty s))) = (.ok cur, true) from rfl]
  exact walkExpr_fmb_lit cur ty s

theorem assignStep_untouched (obj : Obj) (acc : String) (s : GoStmt)
    (h : touchesObj obj s = false) : assignStep obj acc s = acc := by
  cases s with
  | exprStmt e => rfl
  | otherStmt => rfl
  | assign lhs rhs =>
    match lhs, rhs with
    | [], _ => rfl
    | _ :: _ :: _, _ => rfl
    | [lhs0], [] => rfl
    | [lhs0], _ :: _ :: _ => rfl
    | [lhs0], [rhs0] =>
      cases lhs0 with
      | ident name lobj =>
        have hne : ¬ (lobj = some obj) := by
          intro he
          rw [show touchesObj obj (.assign [.ident name lobj] [rhs0]) =
            decide (lobj = some obj) from rfl] at h
          rw [he] at h
          simp at h
        simp only [assignStep, if_neg hne]
      | basicLit a b => rfl
      | sel a b c => rfl
      | call a b => rfl
      | compLit a b => rfl
      | keyValue a b => rfl
      | binary a b => rfl
      | otherExpr => rfl

theorem foldl_assignStep_untouched (obj : Obj) (acc : String) (body : List GoStmt)
    (h : ∀ s ∈ body, touchesObj obj s = false) :
    body.foldl (assignStep obj) acc = acc := by
  induction body generalizing acc with
  | nil => rfl
  | cons s rest ih =>
    show rest.foldl (assignStep obj) (assignStep obj acc s) = acc
    rw [assignStep_untouched obj acc s (h s (List.mem_cons_self s rest))]
    exact ih acc (fun s' hmem => h s' (List.mem_cons_of_mem s hmem))

theorem find?_filter_ne (m : List (String × Metadata)) (k k' : String) (hne : k' ≠ k) :
    (m.filter (fun p => p.1 ≠ k)).find? (fun p => p.1 = k') =
      m.find? (fun p => p.1 = k') := by
  induction m with
  | nil => rfl
  | cons q rest ih =>
    by_cases hq : q.1 = k
    · have hfilter : (q :: rest).filter (fun p => p.1 ≠ k) = rest.filter (fun p => p.1 ≠ k) := by
        simp [List.filter_cons, hq]
      have hq' : ¬ (q.1 = k') := fun he => hne (he.symm.trans hq)
      rw [hfilter, ih, List.find?_cons_of_neg]
      simpa using hq'
    · have hfilter : (q :: rest).filter (fun p => p.1 ≠ k) =
          q :: rest.filter (fun p => p.1 ≠ k) := by
        simp [List.filter_cons, hq]
      rw [hfilter]
      by_cases hq' : q.1 = k'
      · rw [List.find?_cons_of_pos, List.find?_cons_of_pos] <;> simpa using hq'
      · rw [List.find?_cons_of_neg, List.find?_cons_of_neg, ih] <;> simpa using hq'

theorem mapFind_insert (m : List (String × Metadata)) (k : String) (v : Metadata) (k' : String) :
    mapFind (mapInsert m k v) k' = if k' = k then some v else mapFind m k' := by
  by_cases he : k' = k
  · rw [if_pos he]
    show mapFind ((k, v) :: m.filter (fun p => p.1 ≠ k)) k' = some v
    unfold mapFind
    rw [List.find?_cons_of_pos]
    simpa using he.symm
  · rw [if_neg he]
    show mapFind ((k, v) :: m.filter (fun p => p.1 ≠ k)) k' = mapFind m k'
    unfold mapFind
    rw [List.find?_cons_of_neg]
    · rw [find?_filter_ne m k k' he]
    · simpa using fun hx => he (hx.symm)

theorem mapFind_foldl (l : List Metadata) (acc : List (String × Metadata)) (k : String) :
    mapFind (l.foldl (fun m x => mapInsert m x.Id x) acc) k =
      (match lastWins l k with
       | some v => some v
       | none => mapFind acc k) := by
  induction l generalizing acc with
  | nil => rfl
  | cons x rest ih =>
    show mapFind (rest.foldl _ (mapInsert acc x.Id x)) k = _
    rw [ih (mapInsert acc x.Id x), mapFind_insert acc x.Id x k]
    cases hlw : lastWins rest k with
    | some v =>
      rw [show lastWins (x :: rest) k =
        (match lastWins rest k with
         | some v => some v
         | none => if x.Id = k then some x else none) from rfl, hlw]
    | none =>
      rw [show lastWins (x :: rest) k =
        (match lastWins rest k with
         | some v => some v
         | none => if x.Id = k then some x else none) from rfl, hlw]
      by_cases hxk : x.Id = k
      · rw [if_pos hxk, if_pos hxk.symm]
      · rw [if_neg hxk, if_neg (fun he => hxk he.symm)]

theorem mapFind_mapify (l : List Metadata) (k : String) :
    mapFind (mapify l) k = lastWins l k := by
  show mapFind (l.foldl (fun m x => mapInsert m x.Id x) []) k = _
  rw [mapFind_foldl l [] k]
  cases hlw : lastWins l k <;> rfl

theorem mapInsert_mem (q : String × Metadata) (m : List (String × Metadata))
    (k : String) (v : Metadata) (h : q ∈ mapInsert m k v) : q = (k, v) ∨ q ∈ m := by
  rcases List.mem_cons.mp h with he | hmem
  · exact Or.inl he
  · exact Or.inr (List.mem_of_mem_filter hmem)

theorem mapify_snd_id (l : List Metadata) (q : String × Metadata) (h : q ∈ mapify l) :
    q.2.Id = q.1 := by
  suffices hgen : ∀ (acc : List (String × Metadata)), (∀ q' ∈ acc, q'.2.Id = q'.1) →
      q ∈ l.foldl (fun m x => mapInsert m x.Id x) acc → q.2.Id = q.1 by
    exact hgen [] (fun q' hq' => absurd hq' (List.not_mem_nil q')) h
  clear h
  induction l with
  | nil => exact fun acc hacc h => hacc q h
  | cons x rest ih =>
    intro acc hacc h
    refine ih (mapInsert acc x.Id x) ?_ h
    intro q' hq'
    rcases mapInsert_mem q' acc x.Id x hq' with he | hmem
    · rw [he]
    · exact hacc q' hmem

theorem mapInsert_keys_nodup (m : List (String × Metadata)) (k : String) (v : Metadata)
    (h : (m.map Prod.fst).Nodup) : ((mapInsert m k v).map Prod.fst).Nodup := by
  show ((k, v).1 :: (m.filter (fun p => p.1 ≠ k)).map Prod.fst).Nodup
  refine List.nodup_cons.mpr ⟨?_, ?_⟩
  · intro hmem
    rcases List.mem_map.mp hmem with ⟨p, hp, he⟩
    have := (List.mem_filter.mp hp).2
    rw [he] at this
    simp at this
  · exact List.Nodup.sublist ((List.filter_sublist m).map Prod.fst) h

theorem mapify_keys_nodup (l : List Metadata) : ((mapify l).map Prod.fst).Nodup := by
  suffices hgen : ∀ (acc : List (String × Metadata)), (acc.map Prod.fst).Nodup →
      ((l.foldl (fun m x => mapInsert m x.Id x) acc).map Prod.fst).Nodup by
    exact hgen [] List.nodup_nil
  induction l with
  | nil => exact fun acc hacc => hacc
  | cons x rest ih =>
    intro acc hacc
    exact ih (mapInsert acc x.Id x) (mapInsert_keys_nodup acc x.Id x hacc)

theorem mapFind_of_mem : ∀ (m : List (String × Metadata)), (m.map Prod.fst).Nodup →
    ∀ (k : String) (v : Metadata), (k, v) ∈ m → mapFind m k = some v := by
  intro m
  induction m with
  | nil => exact fun _ k v hmem => absurd hmem (List.not_mem_nil _)
  | cons q rest ih =>
    intro hnd k v hmem
    rcases List.mem_cons.mp hmem with he | hmem'
    · rw [← he]
      simp [mapFind, List.find?_cons]
    · have hk : k ∈ rest.map Prod.fst := List.mem_map.mpr ⟨(k, v), hmem', rfl⟩
      have hq : ¬ (q.1 = k) := by
        intro he
        have hnotin := (List.nodup_cons.mp hnd).1
        rw [he] at hnotin
        exact hnotin hk
      have hq2 : decide (q.1 = k) = false := decide_eq_false hq
      have hrest := ih (List.nodup_cons.mp hnd).2 k v hmem'
      unfold mapFind at hrest ⊢
      simp only [List.find?_cons, hq2]
      exact hrest

theorem mem_of_mapFind (m : List (String × Metadata)) (k : String) (v : Metadata)
    (h : mapFind m k = some v) : (k, v) ∈ m := by
  unfold mapFind at h
  cases hf : m.find? (fun p => p.1 = k) with
  | none => rw [hf] at h; exact absurd h (by simp)
  | some p =>
    obtain ⟨pk, pv⟩ := p
    rw [hf] at h
    have hk : pk = k := by simpa using List.find?_some hf
    have hv : pv = v := by simpa using h
    have hpmem := List.mem_of_find?_eq_some hf
    rw [← hk, ← hv]
    exact hpmem

theorem metaFields_inj (a b : Metadata) (h : metaFields a = metaFields b) : a = b := by
  cases a
  cases b
  simp only [metaFields, List.cons.injEq, and_true] at h
  obtain ⟨h1, h2, h3, h4, h5, h6⟩ := h
  subst h1
  subst h2
  subst h3
  subst h4
  subst h5
  subst h6
  rfl

theorem compareMetadata_added_mem (o n : List Metadata) (m : Metadata) :
    m ∈ (compareMetadata o n).Added ↔
      (lastWins n m.Id = some m ∧ lastWins o m.Id = none) := by
  show m ∈ ((mapify n).filter (fun p => (mapFind (mapify o) p.1).isNone)).map Prod.snd ↔ _
  constructor
  · intro hm
    rcases List.mem_map.mp hm with ⟨p, hp, hsnd⟩
    rcases List.mem_filter.mp hp with ⟨hpmem, hcond⟩
    obtain ⟨pk, pv⟩ := p
    have hid : pv.Id = pk := mapify_snd_id n (pk, pv) hpmem
    have hfind : mapFind (mapify n) pk = some pv :=
      mapFind_of_mem (mapify n) (mapify_keys_nodup n) pk pv hpmem
    have hsnd' : pv = m := hsnd
    subst hsnd'
    have hnone : mapFind (mapify o) pk = none := by
      simpa [Option.isNone_iff_eq_none] using hcond
    constructor
    · rw [← hid] at hfind
      rw [← mapFind_mapify]
      exact hfind
    · rw [← hid] at hnone
      rw [← mapFind_mapify]
      exact hnone
  · rintro ⟨h1, h2⟩
    refine List.mem_map.mpr ⟨(m.Id, m), ?_, rfl⟩
    refine List.mem_filter.mpr ⟨?_, ?_⟩
    · exact mem_of_mapFind (mapify n) m.Id m (by rw [mapFind_mapify]; exact h1)
    · show (mapFind (mapify o) m.Id).isNone = true
      rw [mapFind_mapify, h2]
      rfl

theorem compareMetadata_removed_mem (o n : List Metadata) (m : Metadata) :
    m ∈ (compareMetadata o n).Removed ↔
      (lastWins o m.Id = some m ∧ lastWins n m.Id = none) := by
  show m ∈ ((mapify o).filter (fun p => (mapFind (mapify n) p.1).isNone)).map Prod.snd ↔ _
  constructor
  · intro hm
    rcases List.mem_map.mp hm with ⟨p, hp, hsnd⟩
    rcases List.mem_filter.mp hp with ⟨hpmem, hcond⟩
    obtain ⟨pk, pv⟩ := p
    have hid : pv.Id = pk := mapify_snd_id o (pk, pv) hpmem
    have hfind : mapFind (mapify o) pk = some pv :=
      mapFind_of_mem (mapify o) (mapify_keys_nodup o) pk pv hpmem
    have hsnd' : pv = m := hsnd
    subst hsnd'
    have hnone : mapFind (mapify n) pk = none := by
      simpa [Option.isNone_iff_eq_none] using hcond
    constructor
    · rw [← hid] at hfind
      rw [← mapFind_mapify]
      exact hfind
    · rw [← hid] at hnone
      rw [← mapFind_mapify]
      exact hnone
  · rintro ⟨h1, h2⟩
    refine List.mem_map.mpr ⟨(m.Id, m), ?_, rfl⟩
    refine List.mem_filter.mpr ⟨?_, ?_⟩
    · exact mem_of_mapFind (mapify o) m.Id m (by rw [mapFind_mapify]; exact h1)
    · show (mapFind (mapify n) m.Id).isNone = true
      rw [mapFind_mapify, h2]
      rfl

theorem compareMetadata_updated_mem (o n : List Metadata) (e : UpdateEntry) :
    e ∈ (compareMetadata o n).Updated ↔
      (e.Before.Id = e.After.Id ∧ lastWins o e.After.Id = some e.Before ∧
       lastWins n e.After.Id = some e.After ∧ e.Before ≠ e.After) := by
  show e ∈ (mapify n).filterMap (fun p =>
      match mapFind (mapify o) p.1 with
      | none => none
      | some oldMeta =>
        if metaFields oldMeta = metaFields p.2 then none
        else some ⟨oldMeta, p.2⟩) ↔ _
  constructor
  · intro hm
    rcases List.mem_filterMap.mp hm with ⟨p, hpmem, hf⟩
    obtain ⟨pk, pv⟩ := p
    have hid : pv.Id = pk := mapify_snd_id n (pk, pv) hpmem
    have hfindn : mapFind (mapify n) pk = some pv :=
      mapFind_of_mem (mapify n) (mapify_keys_nodup n) pk pv hpmem
    cases hfind : mapFind (mapify o) pk with
    | none =>
      rw [hfind] at hf
      exact absurd hf (by simp)
    | some om =>
      rw [hfind] at hf
      have hf2 : (if metaFields om = metaFields pv then none
          else some (⟨om, pv⟩ : UpdateEntry)) = some e := hf
      by_cases heq : metaFields om = metaFields pv
      · rw [if_pos heq] at hf2
        exact absurd hf2 (by simp)
      · rw [if_neg heq] at hf2
        have he : e = ⟨om, pv⟩ := (Option.some.inj hf2).symm
        subst he
        have homid : om.Id = pk :=
          mapify_snd_id o (pk, om) (mem_of_mapFind (mapify o) pk om hfind)
        refine ⟨homid.trans hid.symm, ?_, ?_, ?_⟩
        · show lastWins o pv.Id = some om
          rw [hid, ← mapFind_mapify]
          exact hfind
        · show lastWins n pv.Id = some pv
          rw [hid, ← mapFind_mapify]
          exact hfindn
        · exact fun hcontra => heq (congrArg metaFields hcontra)
  · rintro ⟨hid, ho, hn, hne⟩
    refine List.mem_filterMap.mpr ⟨(e.After.Id, e.After), ?_, ?_⟩
    · exact mem_of_mapFind _ _ _ (by rw [mapFind_mapify]; exact hn)
    · show (match mapFind (mapify o) e.After.Id with
        | none => none
        | some oldMeta =>
          if metaFields oldMeta = metaFields e.After then none
          else some ⟨oldMeta, e.After⟩) = some e
      rw [mapFind_mapify, ho]
      show (if metaFields e.Before = metaFields e.After then none
        else some (⟨e.Before, e.After⟩ : UpdateEntry)) = some e
      rw [if_neg (fun hmf => hne (metaFields_inj _ _ hmf))]

/-!
Claim theorems.
-/

/-- C1, counterexample: a scan that produced two records with the same Id
`a`, run with no previously persisted snapshot file at the output path,
passes the conflict check and writes the output file — the run does not
terminate with a fatal duplicate-identifier error, contradicting the claim's
"regardless of whether a previously persisted snapshot file exists". -/
theorem C1_counterexample :
    runMetagen [mkIdMeta "a", mkIdMeta "a"] SnapshotFile.missing =
      .ok [mkIdMeta "a", mkIdMeta "a"] := rfl

/-- C1, amended: for every produced collection containing two records with
the same Id, when a parseable snapshot file exists at the output path the run
terminates with a fatal error and no output file is written; but when no
snapshot file exists at the output path the conflict check is skipped
entirely and the output file is written despite the duplicate. -/
theorem C1_amended (l : List Metadata) (existing : List Metadata)
    (hdup : ¬ (l.map (fun m => m.Id)).Nodup) :
    (∃ msg, runMetagen l (.parsed existing) = .error msg) ∧
      runMetagen l SnapshotFile.missing = .ok (sortById l) := by
  constructor
  · rcases conflictLoop_not_ok (existing.map (fun m => m.Id)) l []
      (fun hc => hdup hc.1) with ⟨msg, hmsg⟩
    refine ⟨"Conflict check failed: " ++ msg, ?_⟩
    simp only [runMetagen, checkConflicts]
    rw [hmsg]
  · rfl

/-- C1, witness for the amended theorem at the duplicate collection
`[a, a]`: with a parsed snapshot present the run dies with the duplicate
error, without one it writes the output. -/
theorem C1_amended_witness :
    runMetagen [mkIdMeta "a", mkIdMeta "a"] (.parsed []) =
        .error "Conflict check failed: duplicate adapter Id a found in the current scan" ∧
      runMetagen [mkIdMeta "a", mkIdMeta "a"] SnapshotFile.missing =
        .ok (sortById [mkIdMeta "a", mkIdMeta "a"]) :=
  ⟨rfl, (C1_amended [mkIdMeta "a", mkIdMeta "a"] [] (by decide)).2⟩

/-- C3: the Conflict Checker never fails because an Id of the current scan
already occurs in the pre-existing snapshot: for every current collection
with pairwise distinct Ids and every parsed snapshot — including one
containing every current Id — `checkConflicts` succeeds; the cross-snapshot
comparison branch is a no-op. -/
theorem C3_cross_snapshot_noop (cur existing : List Metadata)
    (h : (cur.map (fun m => m.Id)).Nodup) :
    checkConflicts cur (.parsed existing) = .ok () := by
  show conflictLoop _ cur [] = .ok ()
  exact (conflictLoop_ok_iff _ cur []).mpr ⟨h, fun m _ hin => List.not_mem_nil m.Id hin⟩

/-- C3, witness: both current Ids already occur in the snapshot and the check
still succeeds. -/
theorem C3_cross_snapshot_noop_witness :
    checkConflicts [mkIdMeta "a", mkIdMeta "b"]
      (.parsed [mkIdMeta "a", mkIdMeta "b"]) = .ok () :=
  C3_cross_snapshot_noop [mkIdMeta "a", mkIdMeta "b"] [mkIdMeta "a", mkIdMeta "b"] (by decide)

/-- C2, counterexample: a constructor body with two valid Metadata literals
(Ids `first` and `second`) yields the record of the second literal, not the
first — `ast.Inspect`'s `false` return only prunes the accepted node's own
subtree, so a later sibling literal overwrites the stored record. -/
theorem C2_counterexample :
    findMetadataInFuncBody
        [.exprStmt (mkMetaLit adapterType "\"first\""),
         .exprStmt (mkMetaLit adapterType "\"second\"")] =
      .ok (some (mkIdMeta "second")) ∧ mkIdMeta "second" ≠ mkIdMeta "first" :=
  ⟨rfl, by decide⟩

/-- C2, amended: a candidate literal whose resolved Id is empty is discarded
and traversal continues (an empty-Id literal followed by a valid one yields
the valid one), and an accepted record only prunes its own subtree —
traversal continues with later siblings, so when two valid Metadata literals
appear in one body the last valid one, not the first, is returned. -/
theorem C2_amended (s1 s2 s3 : String) (h1 : goTrimQuotes s1 ≠ "")
    (h2 : goTrimQuotes s2 ≠ "") (h3 : goTrimQuotes s3 ≠ "") :
    findMetadataInFuncBody
        [.exprStmt (mkMetaLit adapterType s1), .exprStmt (mkMetaLit adapterType s2)] =
      .ok (some (mkIdMeta (goTrimQuotes s2))) ∧
    findMetadataInFuncBody
        [.exprStmt (.compLit (some adapterType) []), .exprStmt (mkMetaLit adapterType s3)] =
      .ok (some (mkIdMeta (goTrimQuotes s3))) := by
  have hsuf : stringsHasSuffix (GoType.printed adapterType) "adapter.Metadata" = true := rfl
  constructor
  · show walkStmts fmbVisit (.ok none) _ = _
    rw [show walkStmts fmbVisit (.ok none)
        [.exprStmt (mkMetaLit adapterType s1), .exprStmt (mkMetaLit adapterType s2)] =
      walkStmts fmbVisit
        (walkStmt fmbVisit (.ok none) (.exprStmt (mkMetaLit adapterType s1)))
        [.exprStmt (mkMetaLit adapterType s2)] from rfl]
    rw [walkStmt_fmb_lit none adapterType s1, if_pos hsuf, if_neg h1]
    rw [show walkStmts fmbVisit (.ok (some (mkIdMeta (goTrimQuotes s1))))
        [.exprStmt (mkMetaLit adapterType s2)] =
      walkStmts fmbVisit (walkStmt fmbVisit (.ok (some (mkIdMeta (goTrimQuotes s1))))
        (.exprStmt (mkMetaLit adapterType s2))) [] from rfl]
    rw [walkStmt_fmb_lit (some (mkIdMeta (goTrimQuotes s1))) adapterType s2,
      if_pos hsuf, if_neg h2]
    rfl
  · show walkStmts fmbVisit (.ok none) _ = _
    rw [show walkStmts fmbVisit (.ok none)
        [.exprStmt (.compLit (some adapterType) []), .exprStmt (mkMetaLit adapterType s3)] =
      walkStmts fmbVisit (.ok none) [.exprStmt (mkMetaLit adapterType s3)] from rfl]
    rw [show walkStmts fmbVisit (.ok none) [.exprStmt (mkMetaLit adapterType s3)] =
      walkStmts fmbVisit
        (walkStmt fmbVisit (.ok none) (.exprStmt (mkMetaLit adapterType s3))) [] from rfl]
    rw [walkStmt_fmb_lit none adapterType s3, if_pos hsuf, if_neg h3]
    rfl

/-- C2, witness for the amended theorem: with Ids `first`/`second` the second
record is returned, and with an empty-Id literal before a `valid` literal the
valid record is returned. -/
theorem C2_amended_witness :
    findMetadataInFuncBody
        [.exprStmt (mkMetaLit adapterType "\"first\""),
         .exprStmt (mkMetaLit adapterType "\"second\"")] =
      .ok (some (mkIdMeta "second")) ∧
    findMetadataInFuncBody
        [.exprStmt (.compLit (some adapterType) []),
         .exprStmt (mkMetaLit adapterType "\"valid\"")] =
      .ok (some (mkIdMeta "valid")) :=
  C2_amended "\"first\"" "\"second\"" "\"valid\"" (by decide) (by decide) (by decide)

/-- C4, counterexample: a structurally identical Metadata literal whose
resolved static type lives in the unrelated package `evil.example/adapter`
(same type name, different package than the meloshub adapter package) is
matched and extracted, because acceptance is a suffix test on the printed
type string, not a qualified-identity comparison. -/
theorem C4_counterexample :
    findMetadataInFuncBody
        [.exprStmt (mkMetaLit ⟨"evil.example/adapter", "Metadata"⟩ "\"oops\"")] =
      .ok (some (mkIdMeta "oops")) ∧
      ("evil.example/adapter" : String) ≠ "github.com/meloshub/meloshub/adapter" :=
  ⟨rfl, by decide⟩

/-- C4, amended: a composite literal is accepted as a Metadata candidate
exactly when the printed form of its resolved static type (post
type-checking) ends in `adapter.Metadata`; a same-named type from an
unrelated package is therefore rejected when that package's printed path does
not end in `adapter`, but matched when it does. -/
theorem C4_amended (p s : String) (h : goTrimQuotes s ≠ "") :
    findMetadataInFuncBody [.exprStmt (mkMetaLit ⟨p, "Metadata"⟩ s)] =
      (if stringsHasSuffix (GoType.printed ⟨p, "Metadata"⟩) "adapter.Metadata" = true
       then .ok (some (mkIdMeta (goTrimQuotes s)))
       else .ok none) := by
  show walkStmts fmbVisit (.ok none) _ = _
  rw [show walkStmts fmbVisit (.ok none) [.exprStmt (mkMetaLit ⟨p, "Metadata"⟩ s)] =
    walkStmts fmbVisit
      (walkStmt fmbVisit (.ok none) (.exprStmt (mkMetaLit ⟨p, "Metadata"⟩ s))) [] from rfl]
  rw [walkStmt_fmb_lit none ⟨p, "Metadata"⟩ s]
  by_cases hsuf : stringsHasSuffix (GoType.printed ⟨p, "Metadata"⟩) "adapter.Metadata" = true
  · rw [if_pos hsuf, if_pos hsuf, if_neg h]
    rfl
  · rw [if_neg hsuf, if_neg hsuf]
    rfl

/-- C4, witness for the amended theorem: a `Metadata` literal from
`other/pkg` is rejected, one from `evil.example/adapter` is matched. -/
theorem C4_amended_witness :
    findMetadataInFuncBody [.exprStmt (mkMetaLit ⟨"other/pkg", "Metadata"⟩ "\"x\"")] =
      .ok none ∧
    findMetadataInFuncBody [.exprStmt (mkMetaLit ⟨"evil.example/adapter", "Metadata"⟩ "\"x\"")] =
      .ok (some (mkIdMeta "x")) :=
  ⟨C4_amended "other/pkg" "\"x\"" (by decide),
   C4_amended "evil.example/adapter" "\"x\"" (by decide)⟩

/-- C6: over an initializer body consisting of one call
`pkgAlias.selName(argName)`, the Registration Site Locator honors the call —
returning its first argument — exactly when the textual selector is
`Register` and the resolved callee object's package path ends in
`meloshub/adapter`; the textual package alias never matters, so a
registration call through a renamed import is found, while a same-named call
whose resolved package path lacks the suffix is ignored. -/
theorem C6_locator (pkgAlias selName : String) (selObj : Option Obj) (argName : String) :
    findRegisterCallArgument (singleCallBody pkgAlias selName selObj argName) =
      (if specHonors selName selObj = true then some (.ident argName none) else none) := by
  show walkStmts frcVisit none
    [.exprStmt (.call (.sel (.ident pkgAlias none) selName selObj) [.ident argName none])] = _
  rw [show walkStmts frcVisit none
      [.exprStmt (.call (.sel (.ident pkgAlias none) selName selObj) [.ident argName none])] =
    walkStmt frcVisit none
      (.exprStmt (.call (.sel (.ident pkgAlias none) selName selObj) [.ident argName none]))
    from rfl]
  rw [walkStmt.eq_def]
  rw [show frcVisit none (.stmt (.exprStmt
      (.call (.sel (.ident pkgAlias none) selName selObj) [.ident argName none]))) =
    (none, true) from rfl]
  show walkExpr frcVisit none
    (.call (.sel (.ident pkgAlias none) selName selObj) [.ident argName none]) = _
  rw [walkExpr.eq_def]
  by_cases hreg : selName = "Register"
  · match selObj with
    | none =>
      rw [show frcVisit none (.expr
          (.call (.sel (.ident pkgAlias none) selName none) [.ident argName none])) =
        (none, true) from by simp only [frcVisit, if_pos hreg]]
      rw [show (specHonors selName none : Bool) = false from by
        simp only [specHonors, Bool.and_false]]
      rfl
    | some ⟨u, none, cv⟩ =>
      rw [show frcVisit none (.expr
          (.call (.sel (.ident pkgAlias none) selName (some ⟨u, none, cv⟩)) [.ident argName none])) =
        (none, true) from by simp only [frcVisit, if_pos hreg]]
      rw [show (specHonors selName (some ⟨u, none, cv⟩) : Bool) = false from by
        simp only [specHonors, Bool.and_false]]
      rfl
    | some ⟨u, some p, cv⟩ =>
      by_cases hs : stringsHasSuffix p "meloshub/adapter" = true
      · rw [show frcVisit none (.expr (.call
            (.sel (.ident pkgAlias none) selName (some ⟨u, some p, cv⟩)) [.ident argName none])) =
          (some (.ident argName none), false) from by
            simp only [frcVisit, if_pos hreg, if_pos hs]]
        rw [show (specHonors selName (some ⟨u, some p, cv⟩) : Bool) = true from by
          simp only [specHonors, hs, Bool.and_true, decide_eq_true hreg]]
        rfl
      · rw [show frcVisit none (.expr (.call
            (.sel (.ident pkgAlias none) selName (some ⟨u, some p, cv⟩)) [.ident argName none])) =
          (none, true) from by simp only [frcVisit, if_pos hreg, if_neg hs]]
        have hs2 : stringsHasSuffix p "meloshub/adapter" = false := by simpa using hs
        rw [show (specHonors selName (some ⟨u, some p, cv⟩) : Bool) = false from by
          simp only [specHonors, hs2, Bool.and_false]]
        rfl
  · match selObj with
    | selObj =>
      rw [show frcVisit none (.expr
          (.call (.sel (.ident pkgAlias none) selName selObj) [.ident argName none])) =
        (none, true) from by simp only [frcVisit, if_neg hreg]]
      have hreg2 : decide (selName = "Register") = false := decide_eq_false hreg
      rw [show (specHonors selName selObj : Bool) = false from by
        simp only [specHonors, hreg2, Bool.false_and]]
      rfl

/-- C7: the Snapshot Differ's report, over the two collections collapsed to
maps keyed by Id with a later duplicate silently winning (`lastWins`),
contains exactly: under Added every record whose Id occurs only in the new
collection; under Removed every record whose Id occurs only in the old one;
under Updated a Before/After pair for every Id present in both whose records
differ structurally (canonical serialization compares exactly the field
tuple); and an Id present in both with structurally equal records appears
nowhere in the report. -/
theorem C7_differ (o n : List Metadata) :
    (∀ m : Metadata, m ∈ (compareMetadata o n).Added ↔
      (lastWins n m.Id = some m ∧ lastWins o m.Id = none)) ∧
    (∀ m : Metadata, m ∈ (compareMetadata o n).Removed ↔
      (lastWins o m.Id = some m ∧ lastWins n m.Id = none)) ∧
    (∀ e : UpdateEntry, e ∈ (compareMetadata o n).Updated ↔
      (e.Before.Id = e.After.Id ∧ lastWins o e.After.Id = some e.Before ∧
       lastWins n e.After.Id = some e.After ∧ e.Before ≠ e.After)) ∧
    (∀ (id : String) (m0 : Metadata), lastWins o id = some m0 → lastWins n id = some m0 →
      (∀ x ∈ (compareMetadata o n).Added, x.Id ≠ id) ∧
      (∀ x ∈ (compareMetadata o n).Removed, x.Id ≠ id) ∧
      (∀ e ∈ (compareMetadata o n).Updated, e.After.Id ≠ id ∧ e.Before.Id ≠ id)) := by
  refine ⟨compareMetadata_added_mem o n, compareMetadata_removed_mem o n,
    compareMetadata_updated_mem o n, ?_⟩
  intro id m0 ho hn
  refine ⟨?_, ?_, ?_⟩
  · intro x hx he
    rcases (compareMetadata_added_mem o n x).mp hx with ⟨-, hnone⟩
    rw [he, ho] at hnone
    exact Option.noConfusion hnone
  · intro x hx he
    rcases (compareMetadata_removed_mem o n x).mp hx with ⟨-, hnone⟩
    rw [he, hn] at hnone
    exact Option.noConfusion hnone
  · intro e he
    rcases (compareMetadata_updated_mem o n e).mp he with ⟨hids, heo, hen, hne⟩
    constructor
    · intro hafter
      exact hne (by
        rw [hafter, ho] at heo
        rw [hafter, hn] at hen
        rw [← Option.some.inj heo, ← Option.some.inj hen])
    · intro hbefore
      have hafter : e.After.Id = id := hids ▸ hbefore
      exact hne (by
        rw [hafter, ho] at heo
        rw [hafter, hn] at hen
        rw [← Option.some.inj heo, ← Option.some.inj hen])

/-- C7, witness on the spec's scenario: before `[{a, A1}]`, after
`[{a, A2}, {b}]` — `b` is Added and `(a/A1, a/A2)` is Updated, and on the
unchanged scenario the shared record appears nowhere. -/
theorem C7_differ_witness :
    (⟨"b", "", "", "", "", ""⟩ : Metadata) ∈
      (compareMetadata [⟨"a", "A1", "", "", "", ""⟩]
        [⟨"a", "A2", "", "", "", ""⟩, ⟨"b", "", "", "", "", ""⟩]).Added ∧
    (⟨⟨"a", "A1", "", "", "", ""⟩, ⟨"a", "A2", "", "", "", ""⟩⟩ : UpdateEntry) ∈
      (compareMetadata [⟨"a", "A1", "", "", "", ""⟩]
        [⟨"a", "A2", "", "", "", ""⟩, ⟨"b", "", "", "", "", ""⟩]).Updated ∧
    (∀ x ∈ (compareMetadata [mkIdMeta "a"] [mkIdMeta "a"]).Added, x.Id ≠ "a") :=
  ⟨((C7_differ [⟨"a", "A1", "", "", "", ""⟩]
      [⟨"a", "A2", "", "", "", ""⟩, ⟨"b", "", "", "", "", ""⟩]).1
      ⟨"b", "", "", "", "", ""⟩).mpr ⟨by decide, by decide⟩,
   ((C7_differ [⟨"a", "A1", "", "", "", ""⟩]
      [⟨"a", "A2", "", "", "", ""⟩, ⟨"b", "", "", "", "", ""⟩]).2.2.1
      ⟨⟨"a", "A1", "", "", "", ""⟩, ⟨"a", "A2", "", "", "", ""⟩⟩).mpr
      ⟨by decide, by decide, by decide, by decide⟩,
   ((C7_differ [mkIdMeta "a"] [mkIdMeta "a"]).2.2.2 "a" (mkIdMeta "a")
      (by decide) (by decide)).1⟩

/-- C5: the Constructor Tracer handles exactly two argument shapes.  For a
direct call of a named function it returns that function's (unique)
declaration in the same file; for an indirect variable it resolves the
variable's symbol, finds the single-target assignment whose left-hand side
resolves to that same symbol — not merely the same spelling, a same-spelled
identifier bound to a different symbol yields nothing — with a call on the
right, and returns the callee's declaration; an argument of neither shape
(a literal such as `42`) is untraceable, and the enclosing file scan then
skips the unit with no error. -/
theorem C5_tracer :
    (∀ (file : GoFile) (n : String) (fnObj : Option Obj) (args : List GoExpr) (fd : FuncDecl),
      n ≠ "" → declsNamed file n = [fd] →
      findConstructorFunc file (.call (.ident n fnObj) args) = some fd) ∧
    (∀ (v cn : String) (obj : Obj) (cnObj : Option Obj) (cnArgs : List GoExpr)
        (regStmt : GoExpr) (ctorBody : List GoStmt),
      cn ≠ "" → cn ≠ "init" → (∀ s ∈ ctorBody, touchesObj obj s = false) →
      findConstructorFunc
        [.funcDecl ⟨"init",
          [.assign [.ident v (some obj)] [.call (.ident cn cnObj) cnArgs],
           .exprStmt regStmt]⟩,
         .funcDecl ⟨cn, ctorBody⟩] (.ident v (some obj)) = some ⟨cn, ctorBody⟩) ∧
    (∀ (v cn : String) (obj obj2 : Obj) (cnObj : Option Obj) (cnArgs : List GoExpr)
        (regStmt : GoExpr) (ctorBody : List GoStmt),
      obj2 ≠ obj → (∀ s ∈ ctorBody, touchesObj obj s = false) →
      findConstructorFunc
        [.funcDecl ⟨"init",
          [.assign [.ident v (some obj2)] [.call (.ident cn cnObj) cnArgs],
           .exprStmt regStmt]⟩,
         .funcDecl ⟨cn, ctorBody⟩] (.ident v (some obj)) = none) ∧
    (∀ (file : GoFile) (isStr : Bool) (val : String),
      findConstructorFunc file (.basicLit isStr val) = none) ∧
    findMetadataInFile
      [.funcDecl ⟨"init", [.exprStmt (registerCall (.basicLit false "42"))]⟩] = .ok none := by
  refine ⟨?_, ?_, ?_, fun file isStr val => rfl, rfl⟩
  · intro file n fnObj args fd hn hfd
    show (if n = "" then none else walkFile (lookupVisit n) none file) = some fd
    rw [if_neg hn, walkFile_lookupVisit]
    exact foldl_lookupStep_unique n file fd hfd none
  · intro v cn obj cnObj cnArgs regStmt ctorBody hcn hinit huntouched
    have hstep1 : assignStep obj ""
        (.assign [.ident v (some obj)] [.call (.ident cn cnObj) cnArgs]) = cn := by
      simp only [assignStep]
      simp
    have hscan : walkFile (assignVisit obj) ""
        [.funcDecl ⟨"init",
          [.assign [.ident v (some obj)] [.call (.ident cn cnObj) cnArgs],
           .exprStmt regStmt]⟩,
         .funcDecl ⟨cn, ctorBody⟩] = cn := by
      rw [walkFile_assignVisit]
      show ctorBody.foldl (assignStep obj)
        (assignStep obj (assignStep obj "" (.assign [.ident v (some obj)]
          [.call (.ident cn cnObj) cnArgs])) (.exprStmt regStmt)) = cn
      rw [hstep1]
      exact foldl_assignStep_untouched obj cn ctorBody huntouched
    show (if walkFile (assignVisit obj) "" _ = "" then none
      else walkFile (lookupVisit (walkFile (assignVisit obj) "" _)) none _) = some ⟨cn, ctorBody⟩
    rw [hscan, if_neg hcn, walkFile_lookupVisit]
    show lookupStep cn (lookupStep cn none (.funcDecl ⟨"init", _⟩)) (.funcDecl ⟨cn, ctorBody⟩) =
      some ⟨cn, ctorBody⟩
    have hni : ¬ (("init" : String) = cn) := fun he => hinit he.symm
    simp only [lookupStep, if_neg hni]
    simp
  · intro v cn obj obj2 cnObj cnArgs regStmt ctorBody hobj huntouched
    have hstep1 : assignStep obj ""
        (.assign [.ident v (some obj2)] [.call (.ident cn cnObj) cnArgs]) = "" := by
      have hne : ¬ ((some obj2 : Option Obj) = some obj) := fun he => hobj (Option.some.inj he)
      simp only [assignStep, if_neg hne]
    have hscan : walkFile (assignVisit obj) ""
        [.funcDecl ⟨"init",
          [.assign [.ident v (some obj2)] [.call (.ident cn cnObj) cnArgs],
           .exprStmt regStmt]⟩,
         .funcDecl ⟨cn, ctorBody⟩] = "" := by
      rw [walkFile_assignVisit]
      show ctorBody.foldl (assignStep obj)
        (assignStep obj (assignStep obj "" (.assign [.ident v (some obj2)]
          [.call (.ident cn cnObj) cnArgs])) (.exprStmt regStmt)) = ""
      rw [hstep1]
      exact foldl_assignStep_untouched obj "" ctorBody huntouched
    show (if walkFile (assignVisit obj) "" _ = "" then none
      else walkFile (lookupVisit (walkFile (assignVisit obj) "" _)) none _) = none
    rw [hscan, if_pos rfl]

/-- C5, witness: the direct shape `Register(NewFoo())` resolves the `NewFoo`
declaration; the indirect shape `c := NewFoo(); Register(c)` resolves it too;
a same-spelled variable bound to a different symbol is untraceable; a literal
argument is untraceable; and a file registering `42` is skipped without an
error. -/
theorem C5_tracer_witness :
    findConstructorFunc
        [.funcDecl ⟨"init", []⟩, .funcDecl ⟨"NewFoo", []⟩]
        (.call (.ident "NewFoo" none) []) = some ⟨"NewFoo", []⟩ ∧
    findConstructorFunc
        [.funcDecl ⟨"init",
          [.assign [.ident "c" (some ⟨3, none, none⟩)] [.call (.ident "NewFoo" none) []],
           .exprStmt (registerCall (.ident "c" (some ⟨3, none, none⟩)))]⟩,
         .funcDecl ⟨"NewFoo", []⟩] (.ident "c" (some ⟨3, none, none⟩)) =
      some ⟨"NewFoo", []⟩ ∧
    findConstructorFunc
        [.funcDecl ⟨"init",
          [.assign [.ident "c" (some ⟨4, none, none⟩)] [.call (.ident "NewFoo" none) []],
           .exprStmt (registerCall (.ident "c" (some ⟨3, none, none⟩)))]⟩,
         .funcDecl ⟨"NewFoo", []⟩] (.ident "c" (some ⟨3, none, none⟩)) = none ∧
    findConstructorFunc [] (.basicLit false "42") = none ∧
    findMetadataInFile
      [.funcDecl ⟨"init", [.exprStmt (registerCall (.basicLit false "42"))]⟩] = .ok none :=
  ⟨C5_tracer.1 [.funcDecl ⟨"init", []⟩, .funcDecl ⟨"NewFoo", []⟩] "NewFoo" none [] ⟨"NewFoo", []⟩
    (by decide) rfl,
   C5_tracer.2.1 "c" "NewFoo" ⟨3, none, none⟩ none []
    (registerCall (.ident "c" (some ⟨3, none, none⟩))) [] (by decide) (by decide)
    (fun s hs => absurd hs (List.not_mem_nil s)),
   C5_tracer.2.2.1 "c" "NewFoo" ⟨3, none, none⟩ ⟨4, none, none⟩ none []
    (registerCall (.ident "c" (some ⟨3, none, none⟩))) [] (by decide)
    (fun s hs => absurd hs (List.not_mem_nil s)),
   C5_tracer.2.2.2.1 [] false "42",
   C5_tracer.2.2.2.2⟩

/-- C8: the Constant/Literal Resolver returns, for a string literal whose
source text wraps content in quotes, the content with the quoting stripped;
for an identifier resolving to a declared string constant, its evaluated
string value; for a qualified (selector) reference resolving to a declared
string constant, the same value; and for non-constants — a computed
expression, or an identifier resolving to a non-constant object — the empty
string. -/
theorem C8_resolver (s : String)
    (h1 : s.data.head? ≠ some '"') (h2 : s.data.getLast? ≠ some '"') :
    getExprValue (.basicLit true ("\"" ++ s ++ "\"")) = .ok s ∧
    (∀ (n : String) (u : Nat) (p : Option String) (c : String),
      getExprValue (.ident n (some ⟨u, p, some (.str c)⟩)) = .ok c) ∧
    (∀ (recv : GoExpr) (nm : String) (u : Nat) (p : Option String) (c : String),
      getExprValue (.sel recv nm (some ⟨u, p, some (.str c)⟩)) = .ok c) ∧
    (∀ (a b : GoExpr), getExprValue (.binary a b) = .ok "") ∧
    (∀ (n : String) (u : Nat) (p : Option String),
      getExprValue (.ident n (some ⟨u, p, none⟩)) = .ok "") := by
  refine ⟨?_, fun n u p c => rfl, fun recv nm u p c => rfl, fun a b => rfl, fun n u p => rfl⟩
  show Except.ok (goTrimQuotes ("\"" ++ s ++ "\"")) = .ok s
  rw [goTrimQuotes_wrap s h1 h2]

/-- C8, witness at the constant value `v1`: the literal `"v1"`, a direct
constant reference, and a qualified constant reference all resolve to `v1`,
and a computed expression resolves to the empty string. -/
theorem C8_resolver_witness :
    getExprValue (.basicLit true "\"v1\"") = .ok "v1" ∧
      getExprValue (.ident "version" (some ⟨5, some "example.com/pkg", some (.str "v1")⟩)) =
        .ok "v1" ∧
      getExprValue (.sel (.ident "pkg" none) "Version"
        (some ⟨5, some "example.com/pkg", some (.str "v1")⟩)) = .ok "v1" ∧
      getExprValue (.binary (.ident "a" none) (.ident "b" none)) = .ok "" :=
  ⟨(C8_resolver "v1" (by decide) (by decide)).1,
   (C8_resolver "v1" (by decide) (by decide)).2.1 "version" 5 (some "example.com/pkg") "v1",
   (C8_resolver "v1" (by decide) (by decide)).2.2.1 (.ident "pkg" none) "Version" 5
     (some "example.com/pkg") "v1",
   (C8_resolver "v1" (by decide) (by decide)).2.2.2.1 (.ident "a" none) (.ident "b" none)⟩

/-- C9, counterexample: applied to an identifier resolving to a named
constant that is not of string kind (a numeric constant printed `42`), the
Resolver does not return a string — it panics through
`go/constant.StringVal`, so the claim that it is total and never raises an
error is false. -/
theorem C9_counterexample :
    getExprValue (.ident "badConst" (some ⟨0, none, some (.nonString "42")⟩)) =
      .error "42 not a String" := rfl

/-- C9, amended: the Resolver returns a string result (empty on failure) for
every source expression except an identifier or qualified reference
resolving to a named constant of non-string kind, on which it panics. -/
theorem C9_amended (e : GoExpr) (h : noNonStringConstRef e = true) :
    (getExprValue e).isOk = true := by
  cases e with
  | basicLit isStr v =>
    cases isStr
    · rfl
    · rfl
  | ident n obj? =>
    match obj? with
    | none => rfl
    | some ⟨u, p, none⟩ => rfl
    | some ⟨u, p, some (.str c)⟩ => rfl
    | some ⟨u, p, some .unknown⟩ => rfl
    | some ⟨u, p, some (.nonString pr)⟩ => exact Bool.noConfusion h
  | sel recv nm obj? =>
    match obj? with
    | none => rfl
    | some ⟨u, p, none⟩ => rfl
    | some ⟨u, p, some (.str c)⟩ => rfl
    | some ⟨u, p, some .unknown⟩ => rfl
    | some ⟨u, p, some (.nonString pr)⟩ => exact Bool.noConfusion h
  | call fn args => rfl
  | compLit ty elts => rfl
  | keyValue k v => rfl
  | binary a b => rfl
  | otherExpr => rfl

/-- C9, witness for the amended theorem: a numeric literal degrades without
an error. -/
theorem C9_amended_witness : (getExprValue (.basicLit false "42")).isOk = true :=
  C9_amended (.basicLit false "42") (by decide)

/-- C10: a Metadata composite literal written with positional (non
key/value) initializers contributes no field values at all, so its Id stays
empty and the literal is discarded; in particular a literal whose single
positional element is the non-empty string `"id1"` is discarded as not
found by the extractor. -/
theorem C10_positional (ty : Option GoType) (elts : List GoExpr)
    (h : ∀ el ∈ elts, isKeyValueNode el = false) :
    parseCompositeLit (.compLit ty elts) = .ok none ∧
      findMetadataInFuncBody
        [.exprStmt (.compLit (some adapterType) [.basicLit true "\"id1\""])] = .ok none := by
  constructor
  · show (match parseFields Metadata.zero elts with
      | .error p => .error p
      | .ok m => if m.Id = "" then .ok none else .ok (some m) : Except String (Option Metadata)) = .ok none
    rw [parseFields_noKV Metadata.zero elts h]
    rfl
  · rfl

/-- C10, witness: a positional-only literal carrying the Id string `"id1"`
positionally is still discarded. -/
theorem C10_positional_witness :
    parseCompositeLit (.compLit (some adapterType) [.basicLit true "\"id1\""]) = .ok none :=
  (C10_positional (some adapterType) [.basicLit true "\"id1\""] (by decide)).1

end Meloshub
